import Mathlib

/-!
# Shallow embedding of the PIM matrix-multiplication compiler

Each definition below is translated from a named function of the C++
source (files under `src/`), preserving names where Lean allows.
Modelling conventions, stated once here:

* C++ `int` is modelled as `Int`.  All divisions/remainders in the
  pipeline are taken with Lean's `Int` `/` and `%` (Euclidean); every
  division in the source is applied to non-negative operands where C++
  truncating division coincides with Euclidean division.
* C++ `x & 0x3F` / `x & 0x1FF` / `x & 0xFFFFFF` on a two's-complement
  `int` equal the mathematical `x mod 64` / `x mod 512` / `x mod 2^24`,
  which is what Lean's `Int.emod` by a positive constant computes; the
  masks are therefore modelled as `% 64`, `% 512`, `% 16777216`
  followed by `Int.toNat` (the result of `emod` by a positive constant
  is non-negative).
* `std::ceil(static_cast<double>(M) / numCores)` in `parallelizer.cpp`
  is exact for every `int` magnitude (the quotient of two integers
  below 2^53 never rounds across an integer), so it is modelled as the
  integer ceiling division `(M + c - 1) / c` (valid for `c > 0`).
* Sequences built by repeated `push_back` are modelled as `List`
  literals/appends in the same emission order.
-/

/-- `MEMORY_ROW_SIZE` from `pim_compiler.h`: each memory row holds 512
elements. -/
def MEMORY_ROW_SIZE : Int := 512

/-- `MatrixDimensions` from `pim_compiler.h`. -/
structure MatrixDimensions where
  M : Int
  N : Int
  K : Int
deriving DecidableEq, Repr

/-- `WorkAssignment` from `pim_compiler.h`. -/
structure WorkAssignment where
  coreId : Int
  startRow : Int
  endRow : Int
deriving DecidableEq, Repr

/-- `MemoryMap` from `pim_compiler.h`. -/
structure MemoryMap where
  baseAddrA : Int
  baseAddrB : Int
  baseAddrC : Int
  rowSizeA : Int
  rowSizeB : Int
  rowSizeC : Int
  rowsPerMatrixRowA : Int
  rowsPerMatrixRowB : Int
  rowsPerMatrixRowC : Int
deriving DecidableEq, Repr

/-- `ThreeAddressCode` from `pim_compiler.h`. -/
structure ThreeAddressCode where
  instructions : List String
deriving DecidableEq, Repr

/-! ## Instruction encoder (`isa_generator.cpp`) -/

/-- One lowercase hexadecimal digit, as rendered by
`std::hex` in `to_hex_string`. -/
def hexDigitChar (d : Nat) : Char :=
  if d < 10 then Char.ofNat (48 + d) else Char.ofNat (97 + (d - 10))

/-- `to_hex_string` from `isa_generator.cpp`: renders `value & 0xFFFFFF`
as a zero-padded 6-digit lowercase hex string
(`std::hex << std::setw(6) << std::setfill('0')`). -/
def to_hex_string (value : Nat) : String :=
  let v := value % 16777216
  String.mk [hexDigitChar (v / 1048576 % 16), hexDigitChar (v / 65536 % 16),
    hexDigitChar (v / 4096 % 16), hexDigitChar (v / 256 % 16),
    hexDigitChar (v / 16 % 16), hexDigitChar (v % 16)]

/-- The word built by `genProgInstr`/`genExeInstr`/`genEndInstr` in
`isa_generator.cpp` (each repeats this same body with its opcode
constant): mask `coreId &= 0x3F`, `addr &= 0x1FF`, then OR the fields
into bits 18-17 (opcode), 16-11 (coreId), 10 (read), 9 (write),
8-0 (address). -/
def instrWord (op : Nat) (coreId : Int) (read write : Bool) (addr : Int) : Nat :=
  let coreIdM : Nat := (coreId % 64).toNat
  let addrM : Nat := (addr % 512).toNat
  (op <<< 17) ||| (coreIdM <<< 11) ||| ((if read then 1 else 0) <<< 10) |||
    ((if write then 1 else 0) <<< 9) ||| addrM

/-- `genNoOpInstr` from `isa_generator.cpp`: word `0 << 17`, no fields. -/
def genNoOpInstr : String :=
  to_hex_string (0 <<< 17)

/-- `genProgInstr` from `isa_generator.cpp` (opcode `01`). -/
def genProgInstr (coreId : Int) (read write : Bool) (addr : Int) : String :=
  to_hex_string (instrWord 1 coreId read write addr)

/-- `genExeInstr` from `isa_generator.cpp` (opcode `10`). -/
def genExeInstr (coreId : Int) (read write : Bool) (addr : Int) : String :=
  to_hex_string (instrWord 2 coreId read write addr)

/-- `genEndInstr` from `isa_generator.cpp` (opcode `11`). -/
def genEndInstr (coreId : Int) (read write : Bool) (addr : Int) : String :=
  to_hex_string (instrWord 3 coreId read write addr)

/-- Modelled from the spec: no field decoder exists under `src/` (only
the encoder); §4.4 specifies "Decoding (hex→fields) is the mathematical
inverse and must be exact for round-trip testing", with the text form
"lowercase-insensitive 6-digit hex".  Value of one hex digit,
case-insensitive. -/
def decodeHexDigit (c : Char) : Option Nat :=
  if 48 ≤ c.toNat ∧ c.toNat ≤ 57 then some (c.toNat - 48)
  else if 97 ≤ c.toNat ∧ c.toNat ≤ 102 then some (c.toNat - 87)
  else if 65 ≤ c.toNat ∧ c.toNat ≤ 70 then some (c.toNat - 55)
  else none

/-- Modelled from the spec (§4.4): parse a hex string to its numeric
value, most significant digit first; fails on any non-hex character. -/
def decodeHex (s : String) : Option Nat :=
  s.data.foldl (fun acc c => acc.bind (fun a => (decodeHexDigit c).map (fun d => a * 16 + d)))
    (some 0)

/-- Modelled from the spec (§4.4 field table): extract
(opcode, coreId, read, write, address) from a hex instruction word —
opcode at bits 18-17, coreId at 16-11, read at 10, write at 9,
address at 8-0. -/
def decodeInstr (s : String) : Option (Nat × Nat × Bool × Bool × Nat) :=
  (decodeHex s).map (fun w =>
    (w / 131072 % 4, w / 2048 % 64, w / 1024 % 2 = 1, w / 512 % 2 = 1, w % 512))

/-! ## IR generator (`three_address.cpp`) -/

/-- `generateThreeAddressCode` from `three_address.cpp`: the 27
`push_back` calls, in order, with `std::to_string` modelled by
`toString`. -/
def generateThreeAddressCode (dims : MatrixDimensions) : ThreeAddressCode :=
  { instructions :=
    [ "i = 0",
      "L1: if i >= " ++ toString dims.M ++ " goto END_L1",
      "    j = 0",
      "    L2: if j >= " ++ toString dims.N ++ " goto END_L2",
      "        sum = 0",
      "        k = 0",
      "        L3: if k >= " ++ toString dims.K ++ " goto END_L3",
      "            t1 = i * " ++ toString dims.K,
      "            t2 = t1 + k",
      "            t3 = k * " ++ toString dims.N,
      "            t4 = t3 + j",
      "            t5 = A[t2]",
      "            t6 = B[t4]",
      "            t7 = t5 * t6",
      "            sum = sum + t7",
      "            k = k + 1",
      "            goto L3",
      "        END_L3:",
      "        t8 = i * " ++ toString dims.N,
      "        t9 = t8 + j",
      "        C[t9] = sum",
      "        j = j + 1",
      "        goto L2",
      "    END_L2:",
      "    i = i + 1",
      "    goto L1",
      "END_L1:" ] }

/-! ## Work partitioner (`parallelizer.cpp`) -/

/-- `distributeWork` from `parallelizer.cpp`.  The core-count clamp
(`numCores > dims.M` check), the exact `std::ceil` of the double
division (see the header comment), and the loop that pushes an
assignment only when `startRow ≤ endRow` are modelled directly; the
`std::cout` warnings are side effects outside the model. -/
def distributeWork (dims : MatrixDimensions) (numCores : Int) : List WorkAssignment :=
  let nc : Int := if numCores > dims.M then dims.M else numCores
  let rowsPerCore : Int := (dims.M + nc - 1) / nc
  (List.range nc.toNat).filterMap (fun (core : Nat) =>
    let c : Int := (core : Int)
    let start : Int := c * rowsPerCore
    let stop : Int := min ((c + 1) * rowsPerCore - 1) (dims.M - 1)
    if start ≤ stop then some ⟨c, start, stop⟩ else none)

/-! ## Memory layout planner (`memory_layout.cpp`) -/

/-- `optimizeMemoryLayout` from `memory_layout.cpp` (the `std::cout`
report is a side effect outside the model; `sizeC` and `rowsC` are
computed by the source only for that report and are elided). -/
def optimizeMemoryLayout (dims : MatrixDimensions) : MemoryMap :=
  let sizeA := dims.M * dims.K
  let sizeB := dims.K * dims.N
  let rowsA := (sizeA + MEMORY_ROW_SIZE - 1) / MEMORY_ROW_SIZE
  let rowsB := (sizeB + MEMORY_ROW_SIZE - 1) / MEMORY_ROW_SIZE
  { baseAddrA := 0
    baseAddrB := rowsA
    baseAddrC := rowsA + rowsB
    rowSizeA := dims.K
    rowSizeB := dims.N
    rowSizeC := dims.N
    rowsPerMatrixRowA := (dims.K + MEMORY_ROW_SIZE - 1) / MEMORY_ROW_SIZE
    rowsPerMatrixRowB := (dims.N + MEMORY_ROW_SIZE - 1) / MEMORY_ROW_SIZE
    rowsPerMatrixRowC := (dims.N + MEMORY_ROW_SIZE - 1) / MEMORY_ROW_SIZE }

/-! ## Core instruction sequencer (`core_sequence.cpp`)

`generateCoreInstructions` pushes strings: comment strings and the hex
strings returned by the `gen*Instr` encoders.  We factor that emission
as a list of logical entries (`PimEntry`, one per `push_back`) followed
by rendering, so that theorems can speak about the fields the sequencer
passes to the encoder; `generateCoreInstructions` below is the exact
string-level function of the source. -/

/-- One `push_back` of `generateCoreInstructions`: either a comment
string or a logical instruction (the arguments passed to
`genProgInstr`/`genExeInstr`/`genEndInstr`). -/
inductive PimEntry where
  | comment (text : String)
  | prog (coreId : Int) (read write : Bool) (addr : Int)
  | exe (coreId : Int) (read write : Bool) (addr : Int)
  | fin (coreId : Int) (read write : Bool) (addr : Int)
deriving DecidableEq, Repr

/-- Rendering a logical entry to the string the source pushes. -/
def renderEntry : PimEntry → String
  | .comment s => s
  | .prog c r w a => genProgInstr c r w a
  | .exe c r w a => genExeInstr c r w a
  | .fin c r w a => genEndInstr c r w a

/-- Whether an entry is a comment line (`#`-prefixed in the output). -/
def PimEntry.isComment : PimEntry → Bool
  | .comment _ => true
  | _ => false

/-- The inclusive `int` loop `for (i = lo; i <= hi; i++)`. -/
def intRangeIncl (lo hi : Int) : List Int :=
  (List.range (hi - lo + 1).toNat).map (fun (t : Nat) => lo + (t : Int))

/-- `generateCoreInstructions` from `core_sequence.cpp`, one `PimEntry`
per `push_back` in source order.  In the `rowsPerMatrixRowA > 1` branch
the source also computes `startPos`/`endPos`/`elementsInSegment`, local
variables that are never used (the segment-processing instructions are
left as a `...` comment); they are elided here. -/
def coreEntries (coreId startRow endRow : Int) (dims : MatrixDimensions)
    (memMap : MemoryMap) : List PimEntry :=
  [PimEntry.comment ("# Instructions for Core " ++ toString coreId ++ " (Rows " ++
      toString startRow ++ " to " ++ toString endRow ++ ")"),
   PimEntry.prog coreId true false 1]
  ++ ((intRangeIncl startRow endRow).map (fun i =>
      PimEntry.comment ("# Processing row " ++ toString i) ::
      ((if memMap.rowsPerMatrixRowA > 1 then
          ((List.range memMap.rowsPerMatrixRowA.toNat).map (fun (segment : Nat) =>
            let aRowBase := memMap.baseAddrA + i * memMap.rowsPerMatrixRowA
            let aSegmentAddr := aRowBase + (segment : Int)
            [PimEntry.exe coreId true false aSegmentAddr,
             PimEntry.exe coreId false false 0])).flatten
        else
          let aRowAddr := memMap.baseAddrA + i * memMap.rowSizeA / MEMORY_ROW_SIZE
          let aRowOffset := i * memMap.rowSizeA % MEMORY_ROW_SIZE
          [PimEntry.exe coreId true false aRowAddr,
           PimEntry.exe coreId false false aRowOffset])
      ++ ((List.range dims.N.toNat).map (fun (jn : Nat) =>
          let j : Int := (jn : Int)
          PimEntry.comment ("# Computing element C[" ++ toString i ++ "][" ++
              toString j ++ "]") ::
          PimEntry.exe coreId false false 0 ::
          (((List.range dims.K.toNat).map (fun (kn : Nat) =>
              let k : Int := (kn : Int)
              let bIndex := k * memMap.rowSizeB + j
              let bAddr := memMap.baseAddrB + bIndex / MEMORY_ROW_SIZE
              let bOffset := bIndex % MEMORY_ROW_SIZE
              [PimEntry.exe coreId true false bAddr,
               PimEntry.exe coreId false false bOffset,
               PimEntry.exe coreId false false 2])).flatten
            ++ (let cIndex := i * memMap.rowSizeC + j
                let cAddr := memMap.baseAddrC + cIndex / MEMORY_ROW_SIZE
                let cOffset := cIndex % MEMORY_ROW_SIZE
                [PimEntry.exe coreId false true cAddr,
                 PimEntry.exe coreId false false cOffset])))).flatten))).flatten
  ++ [PimEntry.fin coreId false false 0]

/-- `generateCoreInstructions` from `core_sequence.cpp` at the string
level: every entry rendered in emission order. -/
def generateCoreInstructions (coreId startRow endRow : Int)
    (dims : MatrixDimensions) (memMap : MemoryMap) : List String :=
  (coreEntries coreId startRow endRow dims memMap).map renderEntry

/-! ## Pipeline driver (`main.cpp`) -/

/-- The `-M` / `-N` / `-K` override step of `main` (`main.cpp` lines 137-140):
an override is applied only when its value is positive (`-1` means
"use value from file"). -/
def applyOverrides (dims : MatrixDimensions) (overrideM overrideN overrideK : Int) :
    MatrixDimensions :=
  { M := if overrideM > 0 then overrideM else dims.M
    N := if overrideN > 0 then overrideN else dims.N
    K := if overrideK > 0 then overrideK else dims.K }

/-- The dimension validation-and-override step of `main` (`main.cpp`
lines 131-140): the parsed dimensions are validated first (`return 1`
— modelled as `none` — when any is `≤ 0`), and only then are the
command-line overrides applied.  The result is the `MatrixDimensions`
the rest of the pipeline sees. -/
def mainDims (parsed : MatrixDimensions) (overrideM overrideN overrideK : Int) :
    Option MatrixDimensions :=
  if parsed.M ≤ 0 ∨ parsed.N ≤ 0 ∨ parsed.K ≤ 0 then none
  else some (applyOverrides parsed overrideM overrideN overrideK)

/-- The dimension policy as claim C7 words it (validation reflects the
dimensions as they stand AFTER all overrides): apply the overrides
first, then abort exactly when a post-override dimension is `≤ 0`. -/
def specMainDims (parsed : MatrixDimensions) (overrideM overrideN overrideK : Int) :
    Option MatrixDimensions :=
  let d := applyOverrides parsed overrideM overrideN overrideK
  if d.M ≤ 0 ∨ d.N ≤ 0 ∨ d.K ≤ 0 then none else some d

/-! ## Claim-side descriptions of the sequencer output

These lists are written from the wording of claims C3 and C9 (spec
§4.5): the per-column block (accumulator clear at address 0, the
`k`-loop's load pair plus multiply-accumulate at address 2, and the
store pair), and the whole per-core program in the
`rowsPerMatrixRowA == 1` and `> 1` forms. -/

/-- Per-column emission as the spec/claims describe it: clear
accumulator, then for each `k` the B load pair and the MAC (operation
constant 2), then the C store pair. -/
def specColumnBlock (coreId i : Int) (dims : MatrixDimensions) (m : MemoryMap) :
    List PimEntry :=
  ((List.range dims.N.toNat).map (fun (jn : Nat) =>
    let j : Int := (jn : Int)
    PimEntry.exe coreId false false 0 ::
    (((List.range dims.K.toNat).map (fun (kn : Nat) =>
        let k : Int := (kn : Int)
        let bIndex := k * m.rowSizeB + j
        [PimEntry.exe coreId true false (m.baseAddrB + bIndex / 512),
         PimEntry.exe coreId false false (bIndex % 512),
         PimEntry.exe coreId false false 2])).flatten
      ++ (let cIndex := i * m.rowSizeC + j
          [PimEntry.exe coreId false true (m.baseAddrC + cIndex / 512),
           PimEntry.exe coreId false false (cIndex % 512)])))).flatten

/-- Whole-core program in the `rowsPerMatrixRowA == 1` case, as claim
C3 describes it: one PROG, then per row the A address-load pair
(`baseAddrA + (i*rowSizeA)/512` and `(i*rowSizeA)%512`) followed by the
column blocks, then one END. -/
def specCoreProgramSingle (coreId startRow endRow : Int) (dims : MatrixDimensions)
    (m : MemoryMap) : List PimEntry :=
  PimEntry.prog coreId true false 1 ::
  ((intRangeIncl startRow endRow).map (fun i =>
    [PimEntry.exe coreId true false (m.baseAddrA + i * m.rowSizeA / 512),
     PimEntry.exe coreId false false (i * m.rowSizeA % 512)]
    ++ specColumnBlock coreId i dims m)).flatten
  ++ [PimEntry.fin coreId false false 0]

/-- Whole-core program in the `rowsPerMatrixRowA > 1` case, as claim
C9 describes it: one PROG, then per row one load EXE (read) at
`baseAddrA + i*rowsPerMatrixRowA + segment` per segment, each followed
by its offset-0 EXE and by no further per-segment accumulation
instructions, then the column blocks, then one END. -/
def specCoreProgramMulti (coreId startRow endRow : Int) (dims : MatrixDimensions)
    (m : MemoryMap) : List PimEntry :=
  PimEntry.prog coreId true false 1 ::
  ((intRangeIncl startRow endRow).map (fun i =>
    ((List.range m.rowsPerMatrixRowA.toNat).map (fun (seg : Nat) =>
      [PimEntry.exe coreId true false (m.baseAddrA + i * m.rowsPerMatrixRowA + (seg : Int)),
       PimEntry.exe coreId false false 0])).flatten
    ++ specColumnBlock coreId i dims m)).flatten
  ++ [PimEntry.fin coreId false false 0]

/-! ## Textual observations on the IR listing (for claim C8) -/

/-- First whitespace-delimited token of a line. -/
def firstToken (s : String) : String :=
  String.mk ((s.data.dropWhile (fun c => c = ' ')).takeWhile (fun c => c ≠ ' '))

/-- The label a line defines: its first token, when that token ends in
`:`, stripped of the colon. -/
def lineLabel (s : String) : Option String :=
  let t := (firstToken s).data
  if t ≠ [] ∧ t.getLast? = some ':' then some (String.mk t.dropLast) else none

/-- The temporary a line assigns: its first token, when that token is
`t` followed by digits. -/
def tempName (s : String) : Option String :=
  match (firstToken s).data with
  | 't' :: rest =>
    if rest ≠ [] ∧ rest.all (fun c => c.isDigit) then some (String.mk ('t' :: rest))
    else none
  | _ => none

/-- The literal a loop-bound comparison tests against: on the `L1:`,
`L2:`, `L3:` lines, the token after `>=`. -/
def boundLiteral (s : String) : Option String :=
  if firstToken s = "L1:" ∨ firstToken s = "L2:" ∨ firstToken s = "L3:" then
    some (String.mk (((s.data.dropWhile (fun c => c ≠ '>')).drop 3).takeWhile (fun c => c ≠ ' ')))
  else none

/-! ## Theorems -/

/-- Disjoint-support bitwise OR is addition: helper for decomposing the
encoder's field packing. -/
theorem or_add_pow (k q b : Nat) (hb : b < 2 ^ k) : (2 ^ k * q) ||| b = 2 ^ k * q + b :=
  (Nat.mul_add_lt_is_or hb q).symm

/-- The packed word in additive form: the OR of the shifted fields
equals their sum because the field supports are disjoint. -/
theorem instrWord_eq (op : Nat) (c : Int) (r w : Bool) (a : Int) :
    instrWord op c r w a =
      op * 131072 + (c % 64).toNat * 2048 + (if r then 1 else 0) * 1024 +
        (if w then 1 else 0) * 512 + (a % 512).toNat := by
  have hc0 : 0 ≤ c % 64 := Int.emod_nonneg c (by norm_num)
  have hc1 : c % 64 < 64 := Int.emod_lt_of_pos c (by norm_num)
  have ha0 : 0 ≤ a % 512 := Int.emod_nonneg a (by norm_num)
  have ha1 : a % 512 < 512 := Int.emod_lt_of_pos a (by norm_num)
  have hc : (c % 64).toNat < 64 := by omega
  have ha : (a % 512).toNat < 512 := by omega
  unfold instrWord
  simp only [Nat.shiftLeft_eq]
  set c' := (c % 64).toNat with hcdef
  set a' := (a % 512).toNat with hadef
  have hr : (if r then (1:Nat) else 0) ≤ 1 := by cases r <;> simp
  have hw : (if w then (1:Nat) else 0) ≤ 1 := by cases w <;> simp
  set ri := (if r then (1:Nat) else 0) with hrdef
  set wi := (if w then (1:Nat) else 0) with hwdef
  have h1 : op * 2 ^ 17 ||| c' * 2 ^ 11 = op * 2 ^ 17 + c' * 2 ^ 11 := by
    rw [show op * 2 ^ 17 = 2 ^ 17 * op by ring, or_add_pow]
    omega
  have h2 : op * 2 ^ 17 + c' * 2 ^ 11 ||| ri * 2 ^ 10 =
      op * 2 ^ 17 + c' * 2 ^ 11 + ri * 2 ^ 10 := by
    rw [show op * 2 ^ 17 + c' * 2 ^ 11 = 2 ^ 11 * (op * 2 ^ 6 + c') by ring, or_add_pow]
    omega
  have h3 : op * 2 ^ 17 + c' * 2 ^ 11 + ri * 2 ^ 10 ||| wi * 2 ^ 9 =
      op * 2 ^ 17 + c' * 2 ^ 11 + ri * 2 ^ 10 + wi * 2 ^ 9 := by
    rw [show op * 2 ^ 17 + c' * 2 ^ 11 + ri * 2 ^ 10 =
          2 ^ 10 * (op * 2 ^ 7 + c' * 2 + ri) by ring, or_add_pow]
    omega
  have h4 : op * 2 ^ 17 + c' * 2 ^ 11 + ri * 2 ^ 10 + wi * 2 ^ 9 ||| a' =
      op * 2 ^ 17 + c' * 2 ^ 11 + ri * 2 ^ 10 + wi * 2 ^ 9 + a' := by
    rw [show op * 2 ^ 17 + c' * 2 ^ 11 + ri * 2 ^ 10 + wi * 2 ^ 9 =
          2 ^ 9 * (op * 2 ^ 8 + c' * 2 ^ 2 + ri * 2 + wi) by ring, or_add_pow]
    omega
  rw [h1, h2, h3, h4]
  omega

/-- Each hex digit rendered by the encoder decodes back to itself. -/
theorem decodeHexDigit_hexDigitChar (d : Nat) (hd : d < 16) :
    decodeHexDigit (hexDigitChar d) = some d := by
  interval_cases d <;> decide

/-- Parsing the 6-digit hex rendering recovers the value mod 2^24. -/
theorem decodeHex_to_hex_string (v : Nat) :
    decodeHex (to_hex_string v) = some (v % 16777216) := by
  simp only [to_hex_string, decodeHex]
  simp only [List.foldl_cons, List.foldl_nil]
  rw [decodeHexDigit_hexDigitChar _ (Nat.mod_lt _ (by norm_num)),
    decodeHexDigit_hexDigitChar _ (Nat.mod_lt _ (by norm_num)),
    decodeHexDigit_hexDigitChar _ (Nat.mod_lt _ (by norm_num)),
    decodeHexDigit_hexDigitChar _ (Nat.mod_lt _ (by norm_num)),
    decodeHexDigit_hexDigitChar _ (Nat.mod_lt _ (by norm_num)),
    decodeHexDigit_hexDigitChar _ (Nat.mod_lt _ (by norm_num))]
  simp only [Option.some_bind, Option.map_some']
  congr 1
  omega

/-- Field extraction by division/remainder recovers each field of the
additive word form. -/
theorem word_fields_extract (op c' ri wi a' : Nat) (hop : op < 4) (hc : c' < 64)
    (hr : ri < 2) (hw : wi < 2) (ha : a' < 512) :
    (op * 131072 + c' * 2048 + ri * 1024 + wi * 512 + a') < 16777216 ∧
    (op * 131072 + c' * 2048 + ri * 1024 + wi * 512 + a') / 131072 % 4 = op ∧
    (op * 131072 + c' * 2048 + ri * 1024 + wi * 512 + a') / 2048 % 64 = c' ∧
    (op * 131072 + c' * 2048 + ri * 1024 + wi * 512 + a') / 1024 % 2 = ri ∧
    (op * 131072 + c' * 2048 + ri * 1024 + wi * 512 + a') / 512 % 2 = wi ∧
    (op * 131072 + c' * 2048 + ri * 1024 + wi * 512 + a') % 512 = a' := by
  omega

/-- C1: for every opcode in {NOOP, PROG, EXE, END} (bits 00/01/10/11),
every integer coreId and address and booleans read/write, the encoder
packs the word `(op<<17) | ((coreId&0x3F)<<11) | (read<<10) |
(write<<9) | (addr&0x1FF)` (that is the definition of `instrWord`,
shown additively by `instrWord_eq`), renders it as a zero-padded
6-hex-digit string, and decoding that string recovers exactly the same
opcode, read, write, coreId masked to 6 bits and address masked to
9 bits. -/
theorem instr_encode_decode_roundtrip (op : Nat) (hop : op < 4) (coreId addr : Int)
    (read write : Bool) :
    (to_hex_string (instrWord op coreId read write addr)).length = 6 ∧
    decodeInstr (to_hex_string (instrWord op coreId read write addr)) =
      some (op, (coreId % 64).toNat, read, write, (addr % 512).toNat) := by
  have hc : (coreId % 64).toNat < 64 := by
    have h1 := Int.emod_nonneg coreId (show (64:Int) ≠ 0 by norm_num)
    have h2 := Int.emod_lt_of_pos coreId (show (0:Int) < 64 by norm_num)
    omega
  have ha : (addr % 512).toNat < 512 := by
    have h1 := Int.emod_nonneg addr (show (512:Int) ≠ 0 by norm_num)
    have h2 := Int.emod_lt_of_pos addr (show (0:Int) < 512 by norm_num)
    omega
  have hkey := instrWord_eq op coreId read write addr
  obtain ⟨hlt, h1, h2, h3, h4, h5⟩ :=
    word_fields_extract op ((coreId % 64).toNat) (if read then 1 else 0)
      (if write then 1 else 0) ((addr % 512).toNat) hop hc
      (by cases read <;> norm_num) (by cases write <;> norm_num) ha
  refine ⟨by simp [to_hex_string, String.length], ?_⟩
  unfold decodeInstr
  rw [decodeHex_to_hex_string, hkey, Nat.mod_eq_of_lt hlt]
  simp only [Option.map_some', Option.some.injEq, Prod.mk.injEq]
  refine ⟨h1, h2, ?_, ?_, h5⟩
  · rw [h3]; cases read <;> simp
  · rw [h4]; cases write <;> simp

/-- Witness for C1 at a concrete input (coreId 70 masks to 6, address
1000 masks to 488). -/
theorem instr_encode_decode_roundtrip_witness :
    (2:Nat) < 4 ∧
    (to_hex_string (instrWord 2 70 true false 1000)).length = 6 ∧
    decodeInstr (to_hex_string (instrWord 2 70 true false 1000)) =
      some (2, 6, true, false, 488) := by
  refine ⟨by norm_num, (instr_encode_decode_roundtrip 2 (by norm_num) 70 1000 true false).1, ?_⟩
  have h := (instr_encode_decode_roundtrip 2 (by norm_num) 70 1000 true false).2
  rw [h]
  decide

/-- Helper: `filterMap` of a push-if-below-cutoff body over `range nc`
is `map` over the clipped range. -/
theorem filterMap_range_min {α : Type} (f : Nat → Option α) (g : Nat → α) (j : Nat)
    (hf : ∀ n, f n = if n < j then some (g n) else none) (nc : Nat) :
    (List.range nc).filterMap f = (List.range (min nc j)).map g := by
  induction nc with
  | zero => simp
  | succ n ih =>
    rw [List.range_succ, List.filterMap_append, ih]
    by_cases h : n < j
    · rw [show min (n + 1) j = min n j + 1 by omega, List.range_succ, List.map_append,
        show min n j = n by omega]
      simp [hf, h, show min n j = n by omega]
    · rw [show min (n + 1) j = min n j by omega]
      simp [hf, h]

/-- Helper: strict bound against an integer ceiling division. -/
theorem lt_ceilDiv_iff (a b n : Int) (hb : 0 < b) :
    n < (a + b - 1) / b ↔ n * b ≤ a - 1 := by
  rw [Int.lt_iff_add_one_le, Int.le_ediv_iff_mul_le hb, add_mul, one_mul]
  constructor <;> intro h <;> linarith

/-- Helper: an integer ceiling division is at most `n` iff `a ≤ n*b`. -/
theorem ceilDiv_le_iff (a b n : Int) (hb : 0 < b) :
    (a + b - 1) / b ≤ n ↔ a ≤ n * b := by
  rw [← not_lt, lt_ceilDiv_iff a b n hb, not_le]
  constructor <;> intro h <;> linarith

/-- Helper: `a ≤ b * ceil(a/b)`. -/
theorem le_mul_ceilDiv (a b : Int) (hb : 0 < b) : a ≤ b * ((a + b - 1) / b) := by
  have h := Int.ediv_add_emod (a + b - 1) b
  have h1 := Int.emod_nonneg (a + b - 1) (ne_of_gt hb)
  have h2 := Int.emod_lt_of_pos (a + b - 1) hb
  linarith

/-- Closed form of `distributeWork` when `1 ≤ c ≤ M`: the pushed
assignments are exactly cores `0 ≤ n < ceil(M / rowsPerCore)`, with
`rowsPerCore = ceil(M/c)`. -/
theorem distributeWork_eq_map (dims : MatrixDimensions) (c : Int)
    (hc1 : 1 ≤ c) (hcM : c ≤ dims.M) :
    distributeWork dims c =
      (List.range ((dims.M + (dims.M + c - 1) / c - 1) / ((dims.M + c - 1) / c)).toNat).map
        (fun (n : Nat) => ⟨(n : Int), (n : Int) * ((dims.M + c - 1) / c),
          min (((n : Int) + 1) * ((dims.M + c - 1) / c) - 1) (dims.M - 1)⟩) := by
  have hnclamp : ¬ (c > dims.M) := not_lt.mpr hcM
  have hrpc : 0 < (dims.M + c - 1) / c := by
    rw [show (0:Int) < (dims.M + c - 1) / c ↔ 0 + 1 ≤ (dims.M + c - 1) / c by omega,
      Int.le_ediv_iff_mul_le (by omega : (0:Int) < c)]
    omega
  set rpc := (dims.M + c - 1) / c with hrpcdef
  have hj : 0 < (dims.M + rpc - 1) / rpc := by
    rw [show (0:Int) < (dims.M + rpc - 1) / rpc ↔ 0 + 1 ≤ (dims.M + rpc - 1) / rpc by omega,
      Int.le_ediv_iff_mul_le hrpc]
    omega
  have hjc : (dims.M + rpc - 1) / rpc ≤ c := by
    rw [ceilDiv_le_iff _ _ _ hrpc]
    have h := le_mul_ceilDiv dims.M c (by omega : (0:Int) < c)
    rw [hrpcdef]
    linarith
  set jI := (dims.M + rpc - 1) / rpc with hjdef
  simp only [distributeWork]
  rw [if_neg hnclamp]
  rw [filterMap_range_min _
    (fun (n : Nat) => (⟨(n : Int), (n : Int) * rpc,
      min (((n : Int) + 1) * rpc - 1) (dims.M - 1)⟩ : WorkAssignment)) jI.toNat ?_ c.toNat]
  · rw [show min c.toNat jI.toNat = jI.toNat by omega]
  · intro n
    refine if_congr ?_ rfl rfl
    have hsplit : (n : Int) * rpc ≤ ((n : Int) + 1) * rpc - 1 := by
      have h : ((n : Int) + 1) * rpc = (n : Int) * rpc + rpc := by ring
      omega
    constructor
    · intro h
      have h2 : (n : Int) * rpc ≤ dims.M - 1 := le_trans h (min_le_right _ _)
      have h3 : (n : Int) < jI := by
        rw [hjdef, lt_ceilDiv_iff _ _ _ hrpc]
        exact h2
      omega
    · intro h
      have h3 : (n : Int) < jI := by omega
      rw [hjdef, lt_ceilDiv_iff _ _ _ hrpc] at h3
      exact le_min hsplit h3

/-- C2: for every `Dimensions` with `M, N, K > 0` and every requested
core count `1 ≤ c ≤ M`, the assignments returned by `distributeWork`
are ordered by strictly increasing `coreId`, every assignment satisfies
`startRow ≤ endRow`, consecutive assignments are contiguous
(`startRow` of the next = `endRow` of the previous + 1), the first
`startRow` is 0 and the last `endRow` is `M-1`: they partition
`[0, M-1]` with no gaps and no overlaps. -/
theorem distributeWork_partitions (dims : MatrixDimensions) (c : Int)
    (hM : 0 < dims.M) (hN : 0 < dims.N) (hK : 0 < dims.K)
    (hc1 : 1 ≤ c) (hcM : c ≤ dims.M) :
    distributeWork dims c ≠ [] ∧
    (∀ a ∈ distributeWork dims c, a.startRow ≤ a.endRow) ∧
    (∀ i, ∀ h : i + 1 < (distributeWork dims c).length,
      ((distributeWork dims c).get ⟨i, Nat.lt_of_succ_lt h⟩).coreId <
          ((distributeWork dims c).get ⟨i + 1, h⟩).coreId ∧
        ((distributeWork dims c).get ⟨i + 1, h⟩).startRow =
          ((distributeWork dims c).get ⟨i, Nat.lt_of_succ_lt h⟩).endRow + 1) ∧
    (distributeWork dims c).head?.map WorkAssignment.startRow = some 0 ∧
    (distributeWork dims c).getLast?.map WorkAssignment.endRow = some (dims.M - 1) := by
  have hrpc : 0 < (dims.M + c - 1) / c := by
    rw [show (0:Int) < (dims.M + c - 1) / c ↔ 0 + 1 ≤ (dims.M + c - 1) / c by omega,
      Int.le_ediv_iff_mul_le (by omega : (0:Int) < c)]
    omega
  set rpc := (dims.M + c - 1) / c with hrpcdef
  have hj : 0 < (dims.M + rpc - 1) / rpc := by
    rw [show (0:Int) < (dims.M + rpc - 1) / rpc ↔ 0 + 1 ≤ (dims.M + rpc - 1) / rpc by omega,
      Int.le_ediv_iff_mul_le hrpc]
    omega
  set jI := (dims.M + rpc - 1) / rpc with hjdef
  have hcover : dims.M ≤ jI * rpc := by
    have h := le_mul_ceilDiv dims.M rpc hrpc
    rw [hjdef]; linarith
  have hlt : ∀ n : Nat, (n : Int) < jI → (n : Int) * rpc ≤ dims.M - 1 := by
    intro n hn
    rw [hjdef, lt_ceilDiv_iff _ _ _ hrpc] at hn
    exact hn
  have hsplit : ∀ n : Int, n * rpc ≤ (n + 1) * rpc - 1 := by
    intro n
    have h : (n + 1) * rpc = n * rpc + rpc := by ring
    omega
  have hmap := distributeWork_eq_map dims c hc1 hcM
  rw [← hrpcdef, ← hjdef] at hmap
  have hlen : (distributeWork dims c).length = jI.toNat := by
    rw [hmap, List.length_map, List.length_range]
  have hget : ∀ i, ∀ h : i < (distributeWork dims c).length,
      (distributeWork dims c).get ⟨i, h⟩ =
        ⟨(i : Int), (i : Int) * rpc, min (((i : Int) + 1) * rpc - 1) (dims.M - 1)⟩ := by
    intro i h
    have hi : i < jI.toNat := by rw [← hlen]; exact h
    simp only [hmap, List.get_eq_getElem, List.getElem_map, List.getElem_range]
  refine ⟨?_, ?_, ?_, ?_, ?_⟩
  · rw [← List.length_pos, hlen]
    omega
  · intro a ha
    rw [hmap] at ha
    obtain ⟨n, hn, rfl⟩ := List.mem_map.mp ha
    rw [List.mem_range] at hn
    have hnI : (n : Int) < jI := by omega
    exact le_min (hsplit _) (hlt n hnI)
  · intro i h
    rw [hget i (Nat.lt_of_succ_lt h), hget (i + 1) h]
    constructor
    · simp only [Nat.cast_add, Nat.cast_one]
      omega
    · have hi1 : ((i : Nat) + 1 : Int) < jI := by
        have := h
        rw [hlen] at this
        omega
      have := hlt (i + 1) (by push_cast; omega)
      push_cast at this ⊢
      rw [min_eq_left (by omega)]
      ring
  · rw [hmap]
    have hj0 : 0 < jI.toNat := by omega
    rw [List.head?_eq_getElem?]
    rw [List.getElem?_map]
    rw [List.getElem?_range hj0]
    simp
  · rw [hmap]
    rw [List.getLast?_eq_getElem?]
    simp only [List.length_map, List.length_range, List.getElem?_map]
    have hj0 : jI.toNat - 1 < jI.toNat := by omega
    rw [List.getElem?_range hj0]
    simp only [Option.map_some']
    have hcast : ((jI.toNat - 1 : Nat) : Int) = jI - 1 := by omega
    have hlast : min ((((jI.toNat - 1 : Nat) : Int) + 1) * rpc - 1) (dims.M - 1) = dims.M - 1 := by
      rw [hcast]
      have : (jI - 1 + 1) * rpc = jI * rpc := by ring
      rw [min_eq_right]
      omega
    rw [hlast]

/-- Witness for C2 at `{M=4, N=3, K=2}` with 2 cores. -/
theorem distributeWork_partitions_witness :
    (distributeWork ⟨4, 3, 2⟩ 2).head?.map WorkAssignment.startRow = some 0 ∧
    (distributeWork ⟨4, 3, 2⟩ 2).getLast?.map WorkAssignment.endRow = some 3 := by
  have h := distributeWork_partitions ⟨4, 3, 2⟩ 2 (by norm_num) (by norm_num) (by norm_num)
    (by norm_num) (by norm_num)
  refine ⟨h.2.2.2.1, ?_⟩
  rw [h.2.2.2.2]
  decide

/-- C6: for every `Dimensions` with `M > 0` and every requested core
count `c > M`, `distributeWork` clamps the effective core count to `M`
and produces exactly `M` assignments, the `n`-th having `coreId n`,
`startRow n` and `endRow n` (each core covers exactly one row). -/
theorem distributeWork_clamps (dims : MatrixDimensions) (c : Int)
    (hM : 0 < dims.M) (hc : dims.M < c) :
    (distributeWork dims c).length = dims.M.toNat ∧
    distributeWork dims c =
      (List.range dims.M.toNat).map (fun (n : Nat) => ⟨(n : Int), (n : Int), (n : Int)⟩) := by
  have hrpc1 : (dims.M + dims.M - 1) / dims.M = 1 := by
    have h1 : 1 ≤ (dims.M + dims.M - 1) / dims.M := by
      rw [Int.le_ediv_iff_mul_le hM]; omega
    have h2 : (dims.M + dims.M - 1) / dims.M < 2 := by
      rw [Int.ediv_lt_iff_lt_mul hM]; omega
    omega
  have hmain : distributeWork dims c =
      (List.range dims.M.toNat).map (fun (n : Nat) => ⟨(n : Int), (n : Int), (n : Int)⟩) := by
    simp only [distributeWork]
    rw [if_pos (show c > dims.M from hc), hrpc1]
    rw [filterMap_range_min _
      (fun (n : Nat) => (⟨(n : Int), (n : Int), (n : Int)⟩ : WorkAssignment))
      dims.M.toNat ?_ dims.M.toNat]
    · rw [min_self]
    · intro n
      have hcond : ((n : Int) * 1 ≤ min (((n : Int) + 1) * 1 - 1) (dims.M - 1)) ↔
          n < dims.M.toNat := by
        rw [le_min_iff]
        omega
      by_cases h : n < dims.M.toNat
      · rw [if_pos (hcond.mpr h), if_pos h]
        have hmin : min (((n : Int) + 1) * 1 - 1) (dims.M - 1) = (n : Int) := by omega
        rw [hmin]
        simp
      · rw [if_neg (fun hx => h (hcond.mp hx)), if_neg h]
  exact ⟨by rw [hmain]; simp, hmain⟩

/-- Witness for C6 at `{M=3, N=1, K=1}` with 7 requested cores. -/
theorem distributeWork_clamps_witness :
    (distributeWork ⟨3, 1, 1⟩ 7).length = 3 ∧
    distributeWork ⟨3, 1, 1⟩ 7 =
      (List.range 3).map (fun (n : Nat) => ⟨(n : Int), (n : Int), (n : Int)⟩) := by
  have h := distributeWork_clamps ⟨3, 1, 1⟩ 7 (by norm_num) (by norm_num)
  refine ⟨by rw [h.1]; decide, by rw [h.2]; rfl⟩

/-- Helper: integer ceiling division by 512 is the rational ceiling. -/
theorem ceilDiv512_eq_ceil (a : Int) : (a + 511) / 512 = ⌈(a : ℚ) / (512 : ℚ)⌉ := by
  have h : ((a : ℚ) / 512) = -(((-a : Int) : ℚ) / ((512 : Nat) : ℚ)) := by push_cast; ring
  rw [h, Int.ceil_neg, Rat.floor_intCast_div_natCast]
  omega

/-- C4: for every `Dimensions` with `M, N, K > 0`, the `MemoryMap`
returned by `optimizeMemoryLayout` has `baseAddrA = 0 < baseAddrB <
baseAddrC`, with `baseAddrB - baseAddrA = ⌈M*K/512⌉` and
`baseAddrC - baseAddrB = ⌈K*N/512⌉`: the three matrices occupy
disjoint, back-to-back row ranges in the fixed order A, B, C. -/
theorem optimizeMemoryLayout_bases (dims : MatrixDimensions)
    (hM : 0 < dims.M) (hN : 0 < dims.N) (hK : 0 < dims.K) :
    (optimizeMemoryLayout dims).baseAddrA = 0 ∧
    (optimizeMemoryLayout dims).baseAddrA < (optimizeMemoryLayout dims).baseAddrB ∧
    (optimizeMemoryLayout dims).baseAddrB < (optimizeMemoryLayout dims).baseAddrC ∧
    (optimizeMemoryLayout dims).baseAddrB - (optimizeMemoryLayout dims).baseAddrA =
      ⌈((dims.M * dims.K : Int) : ℚ) / (512 : ℚ)⌉ ∧
    (optimizeMemoryLayout dims).baseAddrC - (optimizeMemoryLayout dims).baseAddrB =
      ⌈((dims.K * dims.N : Int) : ℚ) / (512 : ℚ)⌉ := by
  have hMK : 0 < dims.M * dims.K := mul_pos hM hK
  have hKN : 0 < dims.K * dims.N := mul_pos hK hN
  have hrowsA : 1 ≤ (dims.M * dims.K + 511) / 512 := by omega
  have hrowsB : 1 ≤ (dims.K * dims.N + 511) / 512 := by omega
  refine ⟨rfl, ?_, ?_, ?_, ?_⟩
  · show (0 : Int) < (dims.M * dims.K + MEMORY_ROW_SIZE - 1) / MEMORY_ROW_SIZE
    simp only [MEMORY_ROW_SIZE]
    omega
  · show (dims.M * dims.K + MEMORY_ROW_SIZE - 1) / MEMORY_ROW_SIZE <
      (dims.M * dims.K + MEMORY_ROW_SIZE - 1) / MEMORY_ROW_SIZE +
        (dims.K * dims.N + MEMORY_ROW_SIZE - 1) / MEMORY_ROW_SIZE
    simp only [MEMORY_ROW_SIZE]
    omega
  · show (dims.M * dims.K + MEMORY_ROW_SIZE - 1) / MEMORY_ROW_SIZE - 0 =
      ⌈((dims.M * dims.K : Int) : ℚ) / (512 : ℚ)⌉
    simp only [MEMORY_ROW_SIZE]
    rw [show dims.M * dims.K + 512 - 1 = dims.M * dims.K + 511 by ring,
      ceilDiv512_eq_ceil]
    ring
  · show (dims.M * dims.K + MEMORY_ROW_SIZE - 1) / MEMORY_ROW_SIZE +
        (dims.K * dims.N + MEMORY_ROW_SIZE - 1) / MEMORY_ROW_SIZE -
        (dims.M * dims.K + MEMORY_ROW_SIZE - 1) / MEMORY_ROW_SIZE =
      ⌈((dims.K * dims.N : Int) : ℚ) / (512 : ℚ)⌉
    simp only [MEMORY_ROW_SIZE]
    rw [show dims.K * dims.N + 512 - 1 = dims.K * dims.N + 511 by ring,
      ceilDiv512_eq_ceil]
    ring

/-- Witness for C4 at `{M=4, N=3, K=2}`. -/
theorem optimizeMemoryLayout_bases_witness :
    (optimizeMemoryLayout ⟨4, 3, 2⟩).baseAddrA = 0 ∧
    (optimizeMemoryLayout ⟨4, 3, 2⟩).baseAddrB - (optimizeMemoryLayout ⟨4, 3, 2⟩).baseAddrA =
      ⌈((4 * 2 : Int) : ℚ) / (512 : ℚ)⌉ := by
  have h := optimizeMemoryLayout_bases ⟨4, 3, 2⟩ (by norm_num) (by norm_num) (by norm_num)
  exact ⟨h.1, h.2.2.2.1⟩

/-- Helper: `filter` distributes over `flatten`. -/
theorem filter_flatten {α : Type} (p : α → Bool) (L : List (List α)) :
    L.flatten.filter p = (L.map (List.filter p)).flatten := by
  induction L with
  | nil => simp
  | cons x xs ih => simp [List.filter_append, ih]

/-- C3: when `rowsPerMatrixRowA = 1`, the non-comment entries the
sequencer emits are exactly: one PROG; then for each row `i` an EXE
(read) at `baseAddrA + (i*rowSizeA)/512` followed by an EXE at
`(i*rowSizeA)%512`; then per column `j` the accumulator-clear EXE
(address 0) and, per `k` with `bIndex = k*rowSizeB + j`, an EXE (read)
at `baseAddrB + bIndex/512`, an EXE at `bIndex%512` and the
multiply-accumulate EXE at address 2; and after each `k`-loop, with
`cIndex = i*rowSizeC + j`, an EXE (write) at `baseAddrC + cIndex/512`
followed by an EXE at `cIndex%512`; then one END. -/
theorem coreEntries_filter_single (coreId startRow endRow : Int)
    (dims : MatrixDimensions) (m : MemoryMap) (h1 : m.rowsPerMatrixRowA = 1) :
    (coreEntries coreId startRow endRow dims m).filter (fun e => !e.isComment) =
      specCoreProgramSingle coreId startRow endRow dims m := by
  simp only [coreEntries, specCoreProgramSingle, specColumnBlock, h1, MEMORY_ROW_SIZE,
    gt_iff_lt, lt_self_iff_false, if_false, List.filter_append, filter_flatten,
    List.map_map, List.filter_cons, PimEntry.isComment, Bool.not_true, Bool.not_false,
    Function.comp]
  simp [List.filter_append, filter_flatten, List.map_map, Function.comp,
    PimEntry.isComment]
  refine congrArg List.flatten (List.map_congr_left ?_)
  intro i hi
  simp [Function.comp_def, PimEntry.isComment, List.filter_append, filter_flatten,
    List.map_map, List.filter_cons]

/-- Witness for C3: core 0, rows 0-1, `{M=4, N=3, K=2}` (where one
matrix row fits in one memory row). -/
theorem coreEntries_filter_single_witness :
    (optimizeMemoryLayout ⟨4, 3, 2⟩).rowsPerMatrixRowA = 1 ∧
    (coreEntries 0 0 1 ⟨4, 3, 2⟩ (optimizeMemoryLayout ⟨4, 3, 2⟩)).filter
        (fun e => !e.isComment) =
      specCoreProgramSingle 0 0 1 ⟨4, 3, 2⟩ (optimizeMemoryLayout ⟨4, 3, 2⟩) :=
  ⟨by decide, coreEntries_filter_single 0 0 1 ⟨4, 3, 2⟩ _ (by decide)⟩

/-- C9: when `rowsPerMatrixRowA > 1`, the non-comment entries the
sequencer emits are: one PROG; then for each row `i` and each segment
in `[0, rowsPerMatrixRowA)` one load EXE (read) at
`baseAddrA + i*rowsPerMatrixRowA + segment` followed only by the
offset-0 EXE — no further per-segment dot-product accumulation
instructions are emitted in this path (the column blocks follow
after all segments, outside the segment loop); then one END. -/
theorem coreEntries_filter_multi (coreId startRow endRow : Int)
    (dims : MatrixDimensions) (m : MemoryMap) (h1 : m.rowsPerMatrixRowA > 1) :
    (coreEntries coreId startRow endRow dims m).filter (fun e => !e.isComment) =
      specCoreProgramMulti coreId startRow endRow dims m := by
  simp only [coreEntries, specCoreProgramMulti, specColumnBlock, h1, MEMORY_ROW_SIZE,
    if_true, List.filter_append, filter_flatten, List.map_map, List.filter_cons,
    PimEntry.isComment, Bool.not_true, Bool.not_false, Function.comp]
  simp [List.filter_append, filter_flatten, List.map_map, Function.comp,
    PimEntry.isComment]
  refine congrArg List.flatten (List.map_congr_left ?_)
  intro i hi
  simp [Function.comp_def, PimEntry.isComment, List.filter_append, filter_flatten,
    List.map_map, List.filter_cons]

/-- Witness for C9: core 0, row 0, `{M=1, N=1, K=513}` (one row of A
spans two memory rows). -/
theorem coreEntries_filter_multi_witness :
    (optimizeMemoryLayout ⟨1, 1, 513⟩).rowsPerMatrixRowA > 1 ∧
    (coreEntries 0 0 0 ⟨1, 1, 513⟩ (optimizeMemoryLayout ⟨1, 1, 513⟩)).filter
        (fun e => !e.isComment) =
      specCoreProgramMulti 0 0 0 ⟨1, 1, 513⟩ (optimizeMemoryLayout ⟨1, 1, 513⟩) :=
  ⟨by decide, coreEntries_filter_multi 0 0 0 ⟨1, 1, 513⟩ _ (by decide)⟩

theorem digitChar_isDigit (m : Nat) (h : m < 10) : (Nat.digitChar m).isDigit = true := by
  interval_cases m <;> decide

theorem toDigitsCore_digits (f : Nat) : ∀ (n : Nat) (ds : List Char),
    (∀ c ∈ ds, c.isDigit = true) → ∀ c ∈ Nat.toDigitsCore 10 f n ds, c.isDigit = true := by
  induction f with
  | zero =>
    intro n ds h c hc
    rw [Nat.toDigitsCore] at hc
    exact h c hc
  | succ f ih =>
    intro n ds h c hc
    rw [Nat.toDigitsCore] at hc
    by_cases hn : n / 10 = 0
    · rw [if_pos hn] at hc
      rw [List.mem_cons] at hc
      rcases hc with hc | hc
      · exact hc ▸ digitChar_isDigit _ (Nat.mod_lt _ (by norm_num))
      · exact h c hc
    · rw [if_neg hn] at hc
      refine ih (n / 10) _ ?_ c hc
      intro d hd
      rw [List.mem_cons] at hd
      rcases hd with hd | hd
      · exact hd ▸ digitChar_isDigit _ (Nat.mod_lt _ (by norm_num))
      · exact h d hd

theorem natRepr_digits (n : Nat) : ∀ c ∈ (Nat.repr n).data, c.isDigit = true := by
  intro c hc
  have h : (Nat.repr n).data = Nat.toDigits 10 n := rfl
  rw [h, Nat.toDigits] at hc
  exact toDigitsCore_digits (n + 1) n [] (by simp) c hc

theorem toString_pos_digits (M : Int) (h : 0 < M) :
    ∀ c ∈ (toString M).data, c.isDigit = true := by
  obtain ⟨n, rfl⟩ := Int.eq_ofNat_of_zero_le h.le
  intro c hc
  exact natRepr_digits n c hc


theorem firstToken_L1 (s : String) :
    firstToken ("L1: if i >= " ++ s ++ " goto END_L1") = "L1:" := by
  unfold firstToken
  rw [String.data_append, String.data_append,
    show "L1: if i >= ".data = ['L', '1', ':', ' ', 'i', 'f', ' ', 'i', ' ', '>', '=', ' '] from rfl]
  simp [List.dropWhile_cons, List.takeWhile_cons]

theorem firstToken_L2 (s : String) :
    firstToken ("    L2: if j >= " ++ s ++ " goto END_L2") = "L2:" := by
  unfold firstToken
  rw [String.data_append, String.data_append,
    show "    L2: if j >= ".data = [' ', ' ', ' ', ' ', 'L', '2', ':', ' ', 'i', 'f', ' ', 'j', ' ', '>', '=', ' '] from rfl]
  simp [List.dropWhile_cons, List.takeWhile_cons]

theorem firstToken_L3 (s : String) :
    firstToken ("        L3: if k >= " ++ s ++ " goto END_L3") = "L3:" := by
  unfold firstToken
  rw [String.data_append, String.data_append,
    show "        L3: if k >= ".data = [' ', ' ', ' ', ' ', ' ', ' ', ' ', ' ', 'L', '3', ':', ' ', 'i', 'f', ' ', 'k', ' ', '>', '=', ' '] from rfl]
  simp [List.dropWhile_cons, List.takeWhile_cons]

theorem firstToken_t1 (s : String) :
    firstToken ("            t1 = i * " ++ s) = "t1" := by
  unfold firstToken
  rw [String.data_append,
    show "            t1 = i * ".data = [' ', ' ', ' ', ' ', ' ', ' ', ' ', ' ', ' ', ' ', ' ', ' ', 't', '1', ' ', '=', ' ', 'i', ' ', '*', ' '] from rfl]
  simp [List.dropWhile_cons, List.takeWhile_cons]

theorem firstToken_t3 (s : String) :
    firstToken ("            t3 = k * " ++ s) = "t3" := by
  unfold firstToken
  rw [String.data_append,
    show "            t3 = k * ".data = [' ', ' ', ' ', ' ', ' ', ' ', ' ', ' ', ' ', ' ', ' ', ' ', 't', '3', ' ', '=', ' ', 'k', ' ', '*', ' '] from rfl]
  simp [List.dropWhile_cons, List.takeWhile_cons]

theorem firstToken_t8 (s : String) :
    firstToken ("        t8 = i * " ++ s) = "t8" := by
  unfold firstToken
  rw [String.data_append,
    show "        t8 = i * ".data = [' ', ' ', ' ', ' ', ' ', ' ', ' ', ' ', 't', '8', ' ', '=', ' ', 'i', ' ', '*', ' '] from rfl]
  simp [List.dropWhile_cons, List.takeWhile_cons]

theorem isDigit_ne_space (c : Char) (h : c.isDigit = true) : c ≠ ' ' := by
  intro heq
  rw [heq] at h
  exact absurd h (by decide)

theorem boundLiteral_L1 (s : String) (hs : ∀ c ∈ s.data, c ≠ ' ') :
    boundLiteral ("L1: if i >= " ++ s ++ " goto END_L1") = some s := by
  unfold boundLiteral
  rw [firstToken_L1]
  rw [if_pos (by decide)]
  rw [String.data_append, String.data_append,
    show "L1: if i >= ".data = ['L', '1', ':', ' ', 'i', 'f', ' ', 'i', ' ', '>', '=', ' '] from rfl,
    show " goto END_L1".data = ' ' :: "goto END_L1".data from rfl,
    List.append_assoc]
  have hsd : ∀ c ∈ s.data, (fun c => !decide (c = ' ')) c = true := by
    intro c hc
    simpa using hs c hc
  simp [List.dropWhile_cons, List.takeWhile_cons, List.takeWhile_append_of_pos hsd]

theorem boundLiteral_L2 (s : String) (hs : ∀ c ∈ s.data, c ≠ ' ') :
    boundLiteral ("    L2: if j >= " ++ s ++ " goto END_L2") = some s := by
  unfold boundLiteral
  rw [firstToken_L2]
  rw [if_pos (by decide)]
  rw [String.data_append, String.data_append,
    show "    L2: if j >= ".data = [' ', ' ', ' ', ' ', 'L', '2', ':', ' ', 'i', 'f', ' ', 'j', ' ', '>', '=', ' '] from rfl,
    show " goto END_L2".data = ' ' :: "goto END_L2".data from rfl,
    List.append_assoc]
  have hsd : ∀ c ∈ s.data, (fun c => !decide (c = ' ')) c = true := by
    intro c hc
    simpa using hs c hc
  simp [List.dropWhile_cons, List.takeWhile_cons, List.takeWhile_append_of_pos hsd]

theorem boundLiteral_L3 (s : String) (hs : ∀ c ∈ s.data, c ≠ ' ') :
    boundLiteral ("        L3: if k >= " ++ s ++ " goto END_L3") = some s := by
  unfold boundLiteral
  rw [firstToken_L3]
  rw [if_pos (by decide)]
  rw [String.data_append, String.data_append,
    show "        L3: if k >= ".data = [' ', ' ', ' ', ' ', ' ', ' ', ' ', ' ', 'L', '3', ':', ' ', 'i', 'f', ' ', 'k', ' ', '>', '=', ' '] from rfl,
    show " goto END_L3".data = ' ' :: "goto END_L3".data from rfl,
    List.append_assoc]
  have hsd : ∀ c ∈ s.data, (fun c => !decide (c = ' ')) c = true := by
    intro c hc
    simpa using hs c hc
  simp [List.dropWhile_cons, List.takeWhile_cons, List.takeWhile_append_of_pos hsd]

theorem lineLabel_L1line (s : String) : lineLabel ("L1: if i >= " ++ s ++ " goto END_L1") = some "L1" := by
  unfold lineLabel
  rw [firstToken_L1]
  decide

theorem tempName_L1line (s : String) : tempName ("L1: if i >= " ++ s ++ " goto END_L1") = none := by
  unfold tempName
  rw [firstToken_L1]
  decide

theorem lineLabel_L2line (s : String) : lineLabel ("    L2: if j >= " ++ s ++ " goto END_L2") = some "L2" := by
  unfold lineLabel
  rw [firstToken_L2]
  decide

theorem tempName_L2line (s : String) : tempName ("    L2: if j >= " ++ s ++ " goto END_L2") = none := by
  unfold tempName
  rw [firstToken_L2]
  decide

theorem lineLabel_L3line (s : String) : lineLabel ("        L3: if k >= " ++ s ++ " goto END_L3") = some "L3" := by
  unfold lineLabel
  rw [firstToken_L3]
  decide

theorem tempName_L3line (s : String) : tempName ("        L3: if k >= " ++ s ++ " goto END_L3") = none := by
  unfold tempName
  rw [firstToken_L3]
  decide

theorem lineLabel_t1line (s : String) : lineLabel ("            t1 = i * " ++ s) = none := by
  unfold lineLabel
  rw [firstToken_t1]
  decide

theorem tempName_t1line (s : String) : tempName ("            t1 = i * " ++ s) = some "t1" := by
  unfold tempName
  rw [firstToken_t1]
  decide

theorem lineLabel_t3line (s : String) : lineLabel ("            t3 = k * " ++ s) = none := by
  unfold lineLabel
  rw [firstToken_t3]
  decide

theorem tempName_t3line (s : String) : tempName ("            t3 = k * " ++ s) = some "t3" := by
  unfold tempName
  rw [firstToken_t3]
  decide

theorem lineLabel_t8line (s : String) : lineLabel ("        t8 = i * " ++ s) = none := by
  unfold lineLabel
  rw [firstToken_t8]
  decide

theorem tempName_t8line (s : String) : tempName ("        t8 = i * " ++ s) = some "t8" := by
  unfold tempName
  rw [firstToken_t8]
  decide

theorem boundLiteral_t1line (s : String) : boundLiteral ("            t1 = i * " ++ s) = none := by
  unfold boundLiteral
  rw [firstToken_t1]
  rw [if_neg (by decide)]

theorem boundLiteral_t3line (s : String) : boundLiteral ("            t3 = k * " ++ s) = none := by
  unfold boundLiteral
  rw [firstToken_t3]
  rw [if_neg (by decide)]

theorem boundLiteral_t8line (s : String) : boundLiteral ("        t8 = i * " ++ s) = none := by
  unfold boundLiteral
  rw [firstToken_t8]
  rw [if_neg (by decide)]

/-- The labels the IR listing defines, in definition order, for any
dimensions. -/
theorem generateThreeAddressCode_labels (dims : MatrixDimensions) :
    (generateThreeAddressCode dims).instructions.filterMap lineLabel =
      ["L1", "L2", "L3", "END_L3", "END_L2", "END_L1"] := by
  simp only [generateThreeAddressCode, List.filterMap_cons, List.filterMap_nil,
    lineLabel_L1line, lineLabel_L2line, lineLabel_L3line,
    lineLabel_t1line, lineLabel_t3line, lineLabel_t8line,
    (by decide : lineLabel "i = 0" = none),
    (by decide : lineLabel "    j = 0" = none),
    (by decide : lineLabel "        sum = 0" = none),
    (by decide : lineLabel "        k = 0" = none),
    (by decide : lineLabel "            t2 = t1 + k" = none),
    (by decide : lineLabel "            t4 = t3 + j" = none),
    (by decide : lineLabel "            t5 = A[t2]" = none),
    (by decide : lineLabel "            t6 = B[t4]" = none),
    (by decide : lineLabel "            t7 = t5 * t6" = none),
    (by decide : lineLabel "            sum = sum + t7" = none),
    (by decide : lineLabel "            k = k + 1" = none),
    (by decide : lineLabel "            goto L3" = none),
    (by decide : lineLabel "        END_L3:" = some "END_L3"),
    (by decide : lineLabel "        t9 = t8 + j" = none),
    (by decide : lineLabel "        C[t9] = sum" = none),
    (by decide : lineLabel "        j = j + 1" = none),
    (by decide : lineLabel "        goto L2" = none),
    (by decide : lineLabel "    END_L2:" = some "END_L2"),
    (by decide : lineLabel "    i = i + 1" = none),
    (by decide : lineLabel "    goto L1" = none),
    (by decide : lineLabel "END_L1:" = some "END_L1")]

/-- The temporaries the IR listing assigns, in order, for any
dimensions. -/
theorem generateThreeAddressCode_temps (dims : MatrixDimensions) :
    (generateThreeAddressCode dims).instructions.filterMap tempName =
      ["t1", "t2", "t3", "t4", "t5", "t6", "t7", "t8", "t9"] := by
  simp only [generateThreeAddressCode, List.filterMap_cons, List.filterMap_nil,
    tempName_L1line, tempName_L2line, tempName_L3line,
    tempName_t1line, tempName_t3line, tempName_t8line,
    (by decide : tempName "i = 0" = none),
    (by decide : tempName "    j = 0" = none),
    (by decide : tempName "        sum = 0" = none),
    (by decide : tempName "        k = 0" = none),
    (by decide : tempName "            t2 = t1 + k" = some "t2"),
    (by decide : tempName "            t4 = t3 + j" = some "t4"),
    (by decide : tempName "            t5 = A[t2]" = some "t5"),
    (by decide : tempName "            t6 = B[t4]" = some "t6"),
    (by decide : tempName "            t7 = t5 * t6" = some "t7"),
    (by decide : tempName "            sum = sum + t7" = none),
    (by decide : tempName "            k = k + 1" = none),
    (by decide : tempName "            goto L3" = none),
    (by decide : tempName "        END_L3:" = none),
    (by decide : tempName "        t9 = t8 + j" = some "t9"),
    (by decide : tempName "        C[t9] = sum" = none),
    (by decide : tempName "        j = j + 1" = none),
    (by decide : tempName "        goto L2" = none),
    (by decide : tempName "    END_L2:" = none),
    (by decide : tempName "    i = i + 1" = none),
    (by decide : tempName "    goto L1" = none),
    (by decide : tempName "END_L1:" = none)]

/-- The three loop-bound literals of the IR listing are the rendered
M, N, K, in that order. -/
theorem generateThreeAddressCode_bounds (dims : MatrixDimensions)
    (hM : 0 < dims.M) (hN : 0 < dims.N) (hK : 0 < dims.K) :
    (generateThreeAddressCode dims).instructions.filterMap boundLiteral =
      [toString dims.M, toString dims.N, toString dims.K] := by
  have hsM : ∀ c ∈ (toString dims.M).data, c ≠ ' ' :=
    fun c hc => isDigit_ne_space c (toString_pos_digits dims.M hM c hc)
  have hsN : ∀ c ∈ (toString dims.N).data, c ≠ ' ' :=
    fun c hc => isDigit_ne_space c (toString_pos_digits dims.N hN c hc)
  have hsK : ∀ c ∈ (toString dims.K).data, c ≠ ' ' :=
    fun c hc => isDigit_ne_space c (toString_pos_digits dims.K hK c hc)
  simp only [generateThreeAddressCode, List.filterMap_cons, List.filterMap_nil,
    boundLiteral_L1 _ hsM, boundLiteral_L2 _ hsN, boundLiteral_L3 _ hsK,
    boundLiteral_t1line, boundLiteral_t3line, boundLiteral_t8line,
    (by decide : boundLiteral "i = 0" = none),
    (by decide : boundLiteral "    j = 0" = none),
    (by decide : boundLiteral "        sum = 0" = none),
    (by decide : boundLiteral "        k = 0" = none),
    (by decide : boundLiteral "            t2 = t1 + k" = none),
    (by decide : boundLiteral "            t4 = t3 + j" = none),
    (by decide : boundLiteral "            t5 = A[t2]" = none),
    (by decide : boundLiteral "            t6 = B[t4]" = none),
    (by decide : boundLiteral "            t7 = t5 * t6" = none),
    (by decide : boundLiteral "            sum = sum + t7" = none),
    (by decide : boundLiteral "            k = k + 1" = none),
    (by decide : boundLiteral "            goto L3" = none),
    (by decide : boundLiteral "        END_L3:" = none),
    (by decide : boundLiteral "        t9 = t8 + j" = none),
    (by decide : boundLiteral "        C[t9] = sum" = none),
    (by decide : boundLiteral "        j = j + 1" = none),
    (by decide : boundLiteral "        goto L2" = none),
    (by decide : boundLiteral "    END_L2:" = none),
    (by decide : boundLiteral "    i = i + 1" = none),
    (by decide : boundLiteral "    goto L1" = none),
    (by decide : boundLiteral "END_L1:" = none)]

/-- C8: for every `Dimensions` with `M, N, K > 0`, the textual 3AC
listing produced by `generateThreeAddressCode` has label set exactly
{L1, L2, L3, END_L1, END_L2, END_L3} (defined in the order L1, L2, L3,
END_L3, END_L2, END_L1), temporaries exactly t1..t9, and three
loop-bound comparisons testing against the literals of M, N, K
respectively (hence all equal to `"2"` for `{M=2, N=2, K=2}`). -/
theorem threeAC_labels_temps_bounds (dims : MatrixDimensions)
    (hM : 0 < dims.M) (hN : 0 < dims.N) (hK : 0 < dims.K) :
    (generateThreeAddressCode dims).instructions.filterMap lineLabel =
      ["L1", "L2", "L3", "END_L3", "END_L2", "END_L1"] ∧
    ((generateThreeAddressCode dims).instructions.filterMap lineLabel).toFinset =
      {"L1", "L2", "L3", "END_L1", "END_L2", "END_L3"} ∧
    (generateThreeAddressCode dims).instructions.filterMap tempName =
      ["t1", "t2", "t3", "t4", "t5", "t6", "t7", "t8", "t9"] ∧
    (generateThreeAddressCode dims).instructions.filterMap boundLiteral =
      [toString dims.M, toString dims.N, toString dims.K] := by
  refine ⟨generateThreeAddressCode_labels dims, ?_,
    generateThreeAddressCode_temps dims,
    generateThreeAddressCode_bounds dims hM hN hK⟩
  rw [generateThreeAddressCode_labels dims]
  decide

/-- Witness for C8 at `{M=2, N=2, K=2}`: every literal loop bound is
`"2"`. -/
theorem threeAC_labels_temps_bounds_witness :
    (0:Int) < 2 ∧
    (generateThreeAddressCode ⟨2, 2, 2⟩).instructions.filterMap boundLiteral =
      ["2", "2", "2"] := by
  refine ⟨by norm_num, ?_⟩
  have h := (threeAC_labels_temps_bounds ⟨2, 2, 2⟩ (by norm_num) (by norm_num)
    (by norm_num)).2.2.2
  rw [h]
  decide

/-- C5: end-to-end at `{M=4, N=3, K=2}` with 2 requested cores: the
partitioner yields exactly cores 0 (rows 0-1) and 1 (rows 2-3); for
each assignment the first non-comment entry is the PROG instruction and
the last entry is the END instruction, and the number of non-comment
entries per core is `1 + rows*(2 + N*(1 + 3K + 2)) + 1`
`= 1 + 2*(2 + 3*(1 + 3*2 + 2)) + 1 = 60`. -/
theorem endToEnd_4_3_2 :
    distributeWork ⟨4, 3, 2⟩ 2 = [⟨0, 0, 1⟩, ⟨1, 2, 3⟩] ∧
    ((coreEntries 0 0 1 ⟨4, 3, 2⟩ (optimizeMemoryLayout ⟨4, 3, 2⟩)).filter
        (fun e => !e.isComment)).head? = some (PimEntry.prog 0 true false 1) ∧
    (coreEntries 0 0 1 ⟨4, 3, 2⟩ (optimizeMemoryLayout ⟨4, 3, 2⟩)).getLast? =
      some (PimEntry.fin 0 false false 0) ∧
    ((coreEntries 0 0 1 ⟨4, 3, 2⟩ (optimizeMemoryLayout ⟨4, 3, 2⟩)).filter
        (fun e => !e.isComment)).length = 1 + 2 * (2 + 3 * (1 + 3 * 2 + 2)) + 1 ∧
    ((coreEntries 1 2 3 ⟨4, 3, 2⟩ (optimizeMemoryLayout ⟨4, 3, 2⟩)).filter
        (fun e => !e.isComment)).head? = some (PimEntry.prog 1 true false 1) ∧
    (coreEntries 1 2 3 ⟨4, 3, 2⟩ (optimizeMemoryLayout ⟨4, 3, 2⟩)).getLast? =
      some (PimEntry.fin 1 false false 0) ∧
    ((coreEntries 1 2 3 ⟨4, 3, 2⟩ (optimizeMemoryLayout ⟨4, 3, 2⟩)).filter
        (fun e => !e.isComment)).length = 1 + 2 * (2 + 3 * (1 + 3 * 2 + 2)) + 1 := by
  decide

/-- Counterexample to C7 as stated: with parsed dimensions
`{M=-1, N=2, K=2}` and override `-M 5`, the post-override dimensions
are all positive — the claim says the compile proceeds — yet the
driver aborts (`mainDims = none`), because `main.cpp` validates the
parsed dimensions BEFORE applying the overrides.  The policy the claim
describes (`specMainDims`) accepts this input. -/
theorem mainDims_counterexample :
    (0 < (applyOverrides ⟨-1, 2, 2⟩ 5 0 0).M ∧
      0 < (applyOverrides ⟨-1, 2, 2⟩ 5 0 0).N ∧
      0 < (applyOverrides ⟨-1, 2, 2⟩ 5 0 0).K) ∧
    mainDims ⟨-1, 2, 2⟩ 5 0 0 = none ∧
    specMainDims ⟨-1, 2, 2⟩ 5 0 0 = some (applyOverrides ⟨-1, 2, 2⟩ 5 0 0) := by
  decide

/-- C7 amended: the driver aborts exactly when a PARSED (pre-override)
dimension is ≤ 0; the overrides are applied only after validation and
only when positive, so whenever the compile proceeds the dimensions
the pipeline sees are the overridden ones and are all positive. -/
theorem mainDims_characterization (parsed : MatrixDimensions) (oM oN oK : Int) :
    (mainDims parsed oM oN oK = none ↔
      (parsed.M ≤ 0 ∨ parsed.N ≤ 0 ∨ parsed.K ≤ 0)) ∧
    ∀ d, mainDims parsed oM oN oK = some d →
      d = applyOverrides parsed oM oN oK ∧ 0 < d.M ∧ 0 < d.N ∧ 0 < d.K := by
  by_cases h : parsed.M ≤ 0 ∨ parsed.N ≤ 0 ∨ parsed.K ≤ 0
  · constructor
    · simp [mainDims, h]
    · intro d hd
      simp [mainDims, h] at hd
  · constructor
    · simp [mainDims, h]
    · intro d hd
      simp [mainDims, h] at hd
      push_neg at h
      subst hd
      refine ⟨rfl, ?_, ?_, ?_⟩ <;>
        simp only [applyOverrides] <;> split_ifs <;> omega
  
/-- Witness for C7's amended claim: parsed `{2, 3, 4}` with override
`-M 5` proceeds with positive dimensions `{5, 3, 4}`. -/
theorem mainDims_characterization_witness :
    (⟨5, 3, 4⟩ : MatrixDimensions) = applyOverrides ⟨2, 3, 4⟩ 5 (-1) (-1) ∧
    0 < (⟨5, 3, 4⟩ : MatrixDimensions).M ∧ 0 < (⟨5, 3, 4⟩ : MatrixDimensions).N ∧
    0 < (⟨5, 3, 4⟩ : MatrixDimensions).K :=
  (mainDims_characterization ⟨2, 3, 4⟩ 5 (-1) (-1)).2 ⟨5, 3, 4⟩ (by decide)

/-- C10: for every `Dimensions` (any integer values), the IR generator
returns exactly 27 textual lines — the length and line structure are
independent of the dimension values. -/
theorem generateThreeAddressCode_length (dims : MatrixDimensions) :
    (generateThreeAddressCode dims).instructions.length = 27 := rfl
